import Mathlib

/-!
Shallow embedding of `src/lib/internal/watch_mode/files_watcher.js`.

JavaScript `SafeMap` is modelled as an insertion-ordered association list
(`Map.set` updates in place when the key exists, appends otherwise) and
`SafeSet` as an insertion-ordered duplicate-free list.  Set values are
modelled by value; this coincides with the source's reference semantics
whenever no string is used both as a `#ownerDependencies` key obtained via
`get(file)` and as an owner key, which holds for every input evaluated or
quantified over below.  The platform flag `supportsRecursiveWatching`, the
`path.dirname` function, the truthiness of `process.send` and the partial
`url.fileURLToPath` conversion are external collaborators and enter as the
fields of `FWConfig`.  Timers (`setTimeout(.., throttle).unref()`) are
modelled by tagging each throttle entry with its expiry instant; a pending
timer whose expiry is due fires before the next raw notification is
processed.
-/

/-- JavaScript `String.prototype.startsWith` on code points. -/
def jsStartsWith (s pre : String) : Bool :=
  pre.data.isPrefixOf s.data

/-- `Map.get`: the value at the first entry carrying the key. -/
def alGet {α : Type} (m : List (String × α)) (k : String) : Option α :=
  (m.find? (fun e => e.1 == k)).map (fun e => e.2)

/-- `Map.set`: replace in place when the key is present (keeping the
entry's position), append otherwise. -/
def alSet {α : Type} : List (String × α) → String → α → List (String × α)
  | [], k, v => [(k, v)]
  | e :: rest, k, v =>
    if e.1 == k then (k, v) :: rest else e :: alSet rest k v

/-- `Map.delete`. -/
def alDelete {α : Type} (m : List (String × α)) (k : String) : List (String × α) :=
  m.filter (fun e => e.1 != k)

/-- `Set.add`: append when absent. -/
def sInsert (l : List String) (x : String) : List String :=
  if l.contains x then l else l ++ [x]

/-- `Set.delete`. -/
def sDelete (l : List String) (x : String) : List String :=
  l.filter (fun y => y != x)

/-- The `mode` option: `'filter'` or `'all'`. -/
inductive WatchMode where
  | filter
  | all
deriving Repr, DecidableEq

/-- The mutable private state of a `FilesWatcher` instance.  A watcher map
entry carries the `recursive` flag of the registration (the OS handle is an
opaque resource and is not part of the observable state); a throttling entry
carries the instant at which its pending `setTimeout` deletion fires. -/
structure WatcherState where
  watchers : List (String × Bool)
  filteredFiles : List String
  throttling : List (String × Nat)
  depencencyOwners : List (String × List String)
  ownerDependencies : List (String × List String)
  mode : WatchMode
  throttle : Nat
deriving Repr, DecidableEq

/-- The state of a freshly constructed `FilesWatcher`. -/
def initState (mode : WatchMode) (throttle : Nat) : WatcherState :=
  { watchers := [], filteredFiles := [], throttling := [],
    depencencyOwners := [], ownerDependencies := [],
    mode := mode, throttle := throttle }

/-- External collaborators fixed at module load: the platform capability
flag, `path.dirname`, truthiness of `process.send`, and `url.fileURLToPath`
(`none` models a thrown conversion error). -/
structure FWConfig where
  srw : Bool
  dirname : String → String
  hasSend : Bool
  u2p : String → Option String

/-- `#isPathWatched(path)`: the path has its own entry, or some recursive
entry's root is a string prefix of it. -/
def isPathWatched (ws : List (String × Bool)) (path : String) : Bool :=
  if ws.any (fun e => e.1 == path) then true
  else ws.any (fun e => e.2 && jsStartsWith path e.1)

/-- `#removeWatchedChildren(path)`: drop every entry whose key is a strict
descendant (string-prefix sense) of `path`. -/
def removeWatchedChildren (ws : List (String × Bool)) (path : String) :
    List (String × Bool) :=
  ws.filter (fun e => !((e.1 != path) && jsStartsWith e.1 path))

/-- `watchPath(path, recursive = true)`. -/
def watchPath (s : WatcherState) (path : String) (recursive : Bool := true) :
    WatcherState :=
  if isPathWatched s.watchers path then s
  else
    let ws := alSet s.watchers path recursive
    let ws := if recursive then removeWatchedChildren ws path else ws
    { s with watchers := ws }

/-- The `watchedPaths` getter: `[...this.#watchers.keys()]`. -/
def watchedPaths (s : WatcherState) : List String :=
  s.watchers.map (fun e => e.1)

/-- The watch request made by `filterFile`: a recursive watch on the
containing directory when the platform supports recursive watching, a
non-recursive watch on the file itself otherwise. -/
def ffWatch (cfg : FWConfig) (s : WatcherState) (f : String) : WatcherState :=
  if cfg.srw then watchPath s (cfg.dirname f) true
  else watchPath s f false

/-- `filterFile(file, owner)`.  `none` models `undefined`/`null`; the empty
string is the falsy string.  Note the source reads
`this.#ownerDependencies.get(file)` — keyed by `file`, not by `owner` —
before adding `file` and storing the set under `owner`. -/
def filterFile (cfg : FWConfig) (s : WatcherState)
    (file owner : Option String) : WatcherState :=
  match file with
  | none => s
  | some f =>
    if f = "" then s
    else
      let s1 := ffWatch cfg s f
      let s2 := { s1 with filteredFiles := sInsert s1.filteredFiles f }
      match owner with
      | none => s2
      | some o =>
        if o = "" then s2
        else
          let owners := sInsert ((alGet s2.depencencyOwners f).getD []) o
          let dependencies := sInsert ((alGet s2.ownerDependencies f).getD []) f
          { s2 with depencencyOwners := alSet s2.depencencyOwners f owners,
                    ownerDependencies := alSet s2.ownerDependencies o dependencies }

/-- The body of the `owners.forEach` callback in `unfilterFilesOwnedBy`,
for one owner. -/
def unfilterOne (s : WatcherState) (owner : String) : WatcherState :=
  let deps := (alGet s.ownerDependencies owner).getD []
  let s1 := deps.foldl
    (fun acc d =>
      { acc with filteredFiles := sDelete acc.filteredFiles d,
                 depencencyOwners := alDelete acc.depencencyOwners d }) s
  { s1 with filteredFiles := sDelete s1.filteredFiles owner,
            depencencyOwners := alDelete s1.depencencyOwners owner,
            ownerDependencies := alDelete s1.ownerDependencies owner }

/-- `unfilterFilesOwnedBy(owners)`. -/
def unfilterFilesOwnedBy (s : WatcherState) (owners : List String) :
    WatcherState :=
  owners.foldl unfilterOne s

/-- `clearFileFilters()`. -/
def clearFileFilters (s : WatcherState) : WatcherState :=
  { s with filteredFiles := [] }

/-- `clear()`: stops every watcher and clears every map except the
throttle set (the source leaves `#throttling` untouched). -/
def clearAll (s : WatcherState) : WatcherState :=
  { s with watchers := [], filteredFiles := [],
           depencencyOwners := [], ownerDependencies := [] }

/-- An emitted `changed` event: the instant, the trigger, and the `owners`
payload (`none` when `#depencencyOwners` holds no entry for the trigger). -/
abbrev WEvent : Type := Nat × String × Option (List String)

/-- Drop the throttle entries whose pending deletion timer is due. -/
def expireThrottle (th : List (String × Nat)) (now : Nat) : List (String × Nat) :=
  th.filter (fun e => now < e.2)

/-- Membership test of `#throttling` after due timers have fired. -/
def throttledNow (th : List (String × Nat)) (trigger : String) : Bool :=
  th.any (fun e => e.1 == trigger)

/-- `#onChange(trigger)` at instant `now`: due timers fire first, then the
throttle test, then the filter-mode test, then emission plus scheduling of
the throttle deletion at `now + throttle`. -/
def onChangeAt (s : WatcherState) (now : Nat) (trigger : String) :
    WatcherState × List WEvent :=
  let th := expireThrottle s.throttling now
  if throttledNow th trigger then ({ s with throttling := th }, [])
  else if s.mode == WatchMode.filter && !(s.filteredFiles.contains trigger) then
    ({ s with throttling := th }, [])
  else
    ({ s with throttling := th ++ [(trigger, now + s.throttle)] },
     [(now, trigger, alGet s.depencencyOwners trigger)])

/-- Run a list of raw notifications `(instant, trigger)`; instants are
expected in arrival order. -/
def runNotifs (s : WatcherState) : List (Nat × String) → WatcherState × List WEvent
  | [] => (s, [])
  | (t, trig) :: rest =>
    let r := onChangeAt s t trig
    let r' := runNotifs r.1 rest
    (r'.1, r.2 ++ r'.2)

/-- A public mutating operation on the watcher. -/
inductive WOp where
  | filterFile (file owner : Option String)
  | unfilterFilesOwnedBy (owners : List String)
  | clearFileFilters
  | clear
  | watchPath (path : String) (recursive : Bool)

/-- Apply one public operation. -/
def applyOp (cfg : FWConfig) (s : WatcherState) : WOp → WatcherState
  | WOp.filterFile file owner => filterFile cfg s file owner
  | WOp.unfilterFilesOwnedBy owners => unfilterFilesOwnedBy s owners
  | WOp.clearFileFilters => clearFileFilters s
  | WOp.clear => clearAll s
  | WOp.watchPath path recursive => watchPath s path recursive

/-- Run a sequence of public operations. -/
def runOps (cfg : FWConfig) (s : WatcherState) (ops : List WOp) : WatcherState :=
  ops.foldl (applyOp cfg) s

/-- An element of a `watch:require` or `watch:import` list: a falsy value
(skipped by `filterFile`, rejected by `fileURLToPath`), a string, or a
truthy non-string (both `dirname` and `fileURLToPath` throw on it). -/
inductive JSItem where
  | falsy
  | str (s : String)
  | bad
deriving Repr, DecidableEq

/-- The value found under a recognized key of a child message: absent (or
`undefined`), present but not an array, or an array of items. -/
inductive JSField where
  | absent
  | nonArray
  | arr (items : List JSItem)
deriving Repr, DecidableEq

/-- A child-IPC message: `nullish` models `null`/`undefined` (property
access throws), otherwise the two recognized properties. -/
inductive JSMsg where
  | nullish
  | obj (watchRequire watchImport : JSField)
deriving Repr, DecidableEq

/-- One step of `ArrayPrototypeForEach` over `watch:require`:
`this.filterFile(file, key)`.  `none` models a thrown error. -/
def requireStep (cfg : FWConfig) (key : Option String) (s : WatcherState) :
    JSItem → Option WatcherState
  | JSItem.falsy => some s
  | JSItem.str f => some (filterFile cfg s (some f) key)
  | JSItem.bad => none

/-- One step of `ArrayPrototypeForEach` over `watch:import`:
`this.filterFile(fileURLToPath(file), key)`. -/
def importStep (cfg : FWConfig) (key : Option String) (s : WatcherState) :
    JSItem → Option WatcherState
  | JSItem.str u =>
    match cfg.u2p u with
    | some p => some (filterFile cfg s (some p) key)
    | none => none
  | _ => none

/-- `ArrayPrototypeForEach` with a callback that may throw: effects of the
items before the throwing one persist, and the second component records
whether a throw occurred. -/
def forEachFF (step : WatcherState → JSItem → Option WatcherState) :
    WatcherState → List JSItem → WatcherState × Bool
  | s, [] => (s, false)
  | s, it :: rest =>
    match step s it with
    | none => (s, true)
    | some s' => forEachFF step s' rest

/-- The tail of the try block after the `watch:require` list: the
`watch:import` list, then `if (sendInitial && process.send) process.send(..)`.
Result: (state, sent a `watch:restarted` message, threw). -/
def processImport (cfg : FWConfig) (key : Option String) (s : WatcherState)
    (imp : JSField) (sendInitial : Bool) : WatcherState × Bool × Bool :=
  match imp with
  | JSField.arr items =>
    let r := forEachFF (importStep cfg key) s items
    if r.2 then (r.1, false, true)
    else (r.1, cfg.hasSend, false)
  | _ => (s, sendInitial && cfg.hasSend, false)

/-- The whole try block of the listener installed by
`watchChildProcessModules` on one message.  Result:
(state, sent a `watch:restarted` message, threw). -/
def tryBody (cfg : FWConfig) (key : Option String) (s : WatcherState) :
    JSMsg → WatcherState × Bool × Bool
  | JSMsg.nullish => (s, false, true)
  | JSMsg.obj req imp =>
    match req with
    | JSField.arr items =>
      let r := forEachFF (requireStep cfg key) s items
      if r.2 then (r.1, false, true)
      else processImport cfg key r.1 imp true
    | _ => processImport cfg key s imp false

/-- The installed `'message'` listener: the try block wrapped in the
`catch {}` that swallows every error, so the listener itself never lets an
error escape (`Except.error` would model an escaping exception). -/
def messageListener (cfg : FWConfig) (key : Option String) (s : WatcherState)
    (msg : JSMsg) : Except Unit (WatcherState × Bool) :=
  let r := tryBody cfg key s msg
  Except.ok (r.1, r.2.1)

/-- Deliver a stream of child messages to the listener; an escaping
exception (never produced by `messageListener`) would abort the stream. -/
def runMessages (cfg : FWConfig) (key : Option String) :
    WatcherState → List JSMsg → Option (WatcherState × List Bool)
  | s, [] => some (s, [])
  | s, msg :: rest =>
    match messageListener cfg key s msg with
    | Except.error _ => none
    | Except.ok r =>
      (runMessages cfg key r.1 rest).map (fun q => (q.1, r.2 :: q.2))

/-- Whether a `watch:require` item makes `filterFile` throw. -/
def itemThrowsReq : JSItem → Bool
  | JSItem.bad => true
  | _ => false

/-- Whether a `watch:import` item makes `fileURLToPath` (or `filterFile`)
throw. -/
def itemThrowsImp (u2p : String → Option String) : JSItem → Bool
  | JSItem.str u => (u2p u).isNone
  | _ => true

/-- A recognized field processes to completion without a throw. -/
def fieldOk (thr : JSItem → Bool) : JSField → Bool
  | JSField.arr items => !(items.any thr)
  | _ => true

/-- The field holds an array (of any length). -/
def isArrF : JSField → Bool
  | JSField.arr _ => true
  | _ => false

/-- The field holds a non-empty array. -/
def fieldNonempty : JSField → Bool
  | JSField.arr items => !items.isEmpty
  | _ => false

/-- Every recognized list of the message processes without a throw. -/
def msgOk (u2p : String → Option String) : JSMsg → Bool
  | JSMsg.nullish => false
  | JSMsg.obj req imp => fieldOk itemThrowsReq req && fieldOk (itemThrowsImp u2p) imp

/-- At least one recognized key of the message holds an array. -/
def msgRecognized : JSMsg → Bool
  | JSMsg.nullish => false
  | JSMsg.obj req imp => isArrF req || isArrF imp

/-- At least one recognized key of the message holds a non-empty array. -/
def msgHasNonemptyList : JSMsg → Bool
  | JSMsg.nullish => false
  | JSMsg.obj req imp => fieldNonempty req || fieldNonempty imp

/-- The `_ipcMessages` property hung off a child handle: `none` until
`#setupIPC` runs; afterwards the pair of forwarding-listener identities. -/
structure ChildState where
  ipcMessages : Option (Nat × Nat)
deriving Repr, DecidableEq

/-- The `'message'` listener lists of `process` and of the child handle. -/
structure ProcState where
  processListeners : List Nat
  childListeners : List Nat
deriving Repr, DecidableEq

/-- `#setupIPC(child)`: install the two forwarding listeners and record
them on the child. -/
def setupIPC (p : ProcState) (idP idC : Nat) : ProcState × ChildState :=
  ({ processListeners := p.processListeners ++ [idP],
     childListeners := p.childListeners ++ [idC] },
   { ipcMessages := some (idP, idC) })

/-- `destroyIPC(child)`: behind the `#wantsPassthroughIPC` guard, read
`child._ipcMessages.parentToChild` — a property access that throws a
`TypeError` (`Except.error`) when `_ipcMessages` is `undefined` — and
remove the two forwarding listeners. -/
def destroyIPC (wantsPassthroughIPC : Bool) (p : ProcState) (c : ChildState) :
    Except Unit ProcState :=
  if wantsPassthroughIPC then
    match c.ipcMessages with
    | none => Except.error ()
    | some ids =>
      Except.ok { processListeners := p.processListeners.erase ids.1,
                  childListeners := p.childListeners.erase ids.2 }
  else Except.ok p

/-- The operation `op` is a `filterFile` call whose (truthy or falsy) file
argument is the given trigger. -/
def opAddsFile (trigger : String) : WOp → Bool
  | WOp.filterFile (some f) _ => f == trigger
  | _ => false

/-- The operation is not an `unfilterFilesOwnedBy` call. -/
def noUnfilter : WOp → Bool
  | WOp.unfilterFilesOwnedBy _ => false
  | _ => true

/-- The (file, owner) pair recorded in the dependency graph by a single
operation, when both arguments are truthy. -/
def pairOf : WOp → Option (String × String)
  | WOp.filterFile (some f) (some o) =>
    if f = "" ∨ o = "" then none else some (f, o)
  | _ => none

/-- The (file, owner) pairs recorded in the dependency graph by a sequence
of operations: one pair per `filterFile` call whose file and owner are both
truthy. -/
def graphPairs (ops : List WOp) : List (String × String) :=
  ops.filterMap pairOf

/-- The symmetry invariant claimed for the dependency graph:
`file ∈ OwnerToFiles[owner] ⇔ owner ∈ FileToOwners[file]`. -/
def Symm (s : WatcherState) : Prop :=
  ∀ f o : String,
    ((alGet s.ownerDependencies o).getD []).contains f
      = ((alGet s.depencencyOwners f).getD []).contains o

/-- The instants of the events emitted for one trigger path. -/
def eventsFor (trigger : String) (evs : List WEvent) : List Nat :=
  (evs.filter (fun e => e.2.1 == trigger)).map (fun e => e.1)

/-- A concrete configuration for closed evaluations: recursive watching
supported, every file resolved to the directory `/a`, an upstream channel
present, every URL conversion failing. -/
def cfgA : FWConfig :=
  { srw := true, dirname := fun _ => "/a", hasSend := true,
    u2p := fun _ => none }

theorem contains_eq_decide (l : List String) (x : String) :
    l.contains x = decide (x ∈ l) :=
  List.elem_eq_mem x l

theorem contains_sInsert (l : List String) (x y : String) :
    (sInsert l x).contains y = (l.contains y || decide (y = x)) := by
  unfold sInsert
  by_cases h : l.contains x = true
  · rw [if_pos h]
    by_cases hyx : y = x
    · subst hyx; rw [h]; simp
    · simp [hyx]
  · rw [if_neg h]
    rw [contains_eq_decide, contains_eq_decide]
    by_cases hyx : y = x
    · subst hyx; simp
    · simp [List.mem_append, hyx]

theorem contains_sDelete_false (l : List String) (x y : String)
    (h : l.contains y = false) : (sDelete l x).contains y = false := by
  rw [contains_eq_decide] at h ⊢
  simp only [decide_eq_false_iff_not] at h ⊢
  intro hmem
  exact h (List.mem_filter.mp hmem).1

theorem alGet_isSome_eq_any {α : Type} (m : List (String × α)) (k : String) :
    (m.any (fun e => e.1 == k)) = (alGet m k).isSome := by
  induction m with
  | nil => rfl
  | cons e rest ih =>
    by_cases h : e.1 = k
    · simp [alGet, List.find?_cons, h]
    · have hb : (e.1 == k) = false := by simp [h]
      simp only [alGet, List.find?_cons, hb, List.any_cons, Bool.false_or]
      simpa [alGet] using ih

theorem alSet_eq_append {α : Type} (m : List (String × α)) (k : String) (v : α)
    (h : m.any (fun e => e.1 == k) = false) : alSet m k v = m ++ [(k, v)] := by
  induction m with
  | nil => rfl
  | cons e rest ih =>
    simp only [List.any_cons, Bool.or_eq_false_iff] at h
    simp [alSet, h.1, ih h.2]

theorem alGet_alSet {α : Type} (m : List (String × α)) (k k' : String) (v : α) :
    alGet (alSet m k v) k' = if k' = k then some v else alGet m k' := by
  induction m with
  | nil =>
    by_cases hk' : k' = k
    · subst hk'; simp [alSet, alGet, List.find?_cons]
    · have hb : (k == k') = false := by simp [Ne.symm hk']
      simp [alSet, alGet, List.find?_cons, hb, hk']
  | cons e rest ih =>
    by_cases hek : e.1 = k
    · have hb : (e.1 == k) = true := by simp [hek]
      by_cases hk' : k' = k
      · subst hk'
        simp [alSet, hb, alGet, List.find?_cons]
      · have hb2 : (k == k') = false := by simp [Ne.symm hk']
        have hb3 : (e.1 == k') = false := by simp [hek, Ne.symm hk']
        simp [alSet, hb, alGet, List.find?_cons, hb2, hb3, hk']
    · have hb : (e.1 == k) = false := by simp [hek]
      by_cases hek' : e.1 = k'
      · have hkk : ¬(k' = k) := fun h => hek (hek' ▸ h)
        have hb2 : (e.1 == k') = true := by simp [hek']
        simp [alSet, hb, alGet, List.find?_cons, hb2, hkk]
      · have hb2 : (e.1 == k') = false := by simp [hek']
        have hstep : alSet (e :: rest) k v = e :: alSet rest k v := by
          simp [alSet, hb]
        rw [hstep]
        simp only [alGet, List.find?_cons, hb2]
        simpa [alGet] using ih

theorem alGet_alDelete {α : Type} (m : List (String × α)) (k k' : String) :
    alGet (alDelete m k) k' = if k' = k then none else alGet m k' := by
  induction m with
  | nil => simp [alGet, alDelete]
  | cons e rest ih =>
    by_cases hek : e.1 = k
    · have hb : (e.1 != k) = false := by simp [hek]
      have hstep : alDelete (e :: rest) k = alDelete rest k := by
        simp [alDelete, List.filter_cons, hb]
      rw [hstep, ih]
      by_cases hk' : k' = k
      · simp [hk']
      · have hb2 : (e.1 == k') = false := by simp [hek, Ne.symm hk']
        simp [hk', alGet, List.find?_cons, hb2]
    · have hb : (e.1 != k) = true := by simp [hek]
      have hstep : alDelete (e :: rest) k = e :: alDelete rest k := by
        simp [alDelete, List.filter_cons, hb]
      rw [hstep]
      by_cases hek' : e.1 = k'
      · have hkk : ¬(k' = k) := fun h => hek (hek' ▸ h)
        have hb2 : (e.1 == k') = true := by simp [hek']
        simp [alGet, List.find?_cons, hb2, hkk]
      · have hb2 : (e.1 == k') = false := by simp [hek']
        simp only [alGet, List.find?_cons, hb2]
        simpa [alGet] using ih

@[simp] theorem watchPath_filteredFiles (s : WatcherState) (p : String) (r : Bool) :
    (watchPath s p r).filteredFiles = s.filteredFiles := by
  unfold watchPath; split <;> rfl

@[simp] theorem watchPath_throttling (s : WatcherState) (p : String) (r : Bool) :
    (watchPath s p r).throttling = s.throttling := by
  unfold watchPath; split <;> rfl

@[simp] theorem watchPath_depencencyOwners (s : WatcherState) (p : String) (r : Bool) :
    (watchPath s p r).depencencyOwners = s.depencencyOwners := by
  unfold watchPath; split <;> rfl

@[simp] theorem watchPath_ownerDependencies (s : WatcherState) (p : String) (r : Bool) :
    (watchPath s p r).ownerDependencies = s.ownerDependencies := by
  unfold watchPath; split <;> rfl

@[simp] theorem watchPath_mode (s : WatcherState) (p : String) (r : Bool) :
    (watchPath s p r).mode = s.mode := by
  unfold watchPath; split <;> rfl

@[simp] theorem watchPath_throttle (s : WatcherState) (p : String) (r : Bool) :
    (watchPath s p r).throttle = s.throttle := by
  unfold watchPath; split <;> rfl

@[simp] theorem ffWatch_filteredFiles (cfg : FWConfig) (s : WatcherState) (f : String) :
    (ffWatch cfg s f).filteredFiles = s.filteredFiles := by
  unfold ffWatch; split <;> simp

@[simp] theorem ffWatch_throttling (cfg : FWConfig) (s : WatcherState) (f : String) :
    (ffWatch cfg s f).throttling = s.throttling := by
  unfold ffWatch; split <;> simp

@[simp] theorem ffWatch_depencencyOwners (cfg : FWConfig) (s : WatcherState) (f : String) :
    (ffWatch cfg s f).depencencyOwners = s.depencencyOwners := by
  unfold ffWatch; split <;> simp

@[simp] theorem ffWatch_ownerDependencies (cfg : FWConfig) (s : WatcherState) (f : String) :
    (ffWatch cfg s f).ownerDependencies = s.ownerDependencies := by
  unfold ffWatch; split <;> simp

@[simp] theorem ffWatch_mode (cfg : FWConfig) (s : WatcherState) (f : String) :
    (ffWatch cfg s f).mode = s.mode := by
  unfold ffWatch; split <;> simp

@[simp] theorem ffWatch_throttle (cfg : FWConfig) (s : WatcherState) (f : String) :
    (ffWatch cfg s f).throttle = s.throttle := by
  unfold ffWatch; split <;> simp

theorem filterFile_none (cfg : FWConfig) (s : WatcherState) (owner : Option String) :
    filterFile cfg s none owner = s := rfl

theorem filterFile_some_empty (cfg : FWConfig) (s : WatcherState) (owner : Option String) :
    filterFile cfg s (some "") owner = s := by
  unfold filterFile
  simp

theorem filterFile_filteredFiles (cfg : FWConfig) (s : WatcherState)
    (f : String) (owner : Option String) (hf : f ≠ "") :
    (filterFile cfg s (some f) owner).filteredFiles = sInsert s.filteredFiles f := by
  unfold filterFile
  cases owner with
  | none => simp [hf]
  | some o =>
    by_cases ho : o = ""
    · simp [hf, ho]
    · simp [hf, ho]

theorem filterFile_graph (cfg : FWConfig) (s : WatcherState) (f o : String)
    (hf : f ≠ "") (ho : o ≠ "") :
    (filterFile cfg s (some f) (some o)).depencencyOwners
        = alSet s.depencencyOwners f
            (sInsert ((alGet s.depencencyOwners f).getD []) o)
      ∧ (filterFile cfg s (some f) (some o)).ownerDependencies
        = alSet s.ownerDependencies o
            (sInsert ((alGet s.ownerDependencies f).getD []) f) := by
  unfold filterFile
  simp [hf, ho]

theorem filterFile_graph_no_owner (cfg : FWConfig) (s : WatcherState)
    (f : String) (owner : Option String)
    (ho : owner = none ∨ owner = some "") :
    (filterFile cfg s (some f) owner).depencencyOwners = s.depencencyOwners
      ∧ (filterFile cfg s (some f) owner).ownerDependencies = s.ownerDependencies := by
  unfold filterFile
  by_cases hf : f = ""
  · simp [hf]
  · rcases ho with h | h <;> subst h <;> simp [hf]

theorem filterFile_mode (cfg : FWConfig) (s : WatcherState)
    (file owner : Option String) :
    (filterFile cfg s file owner).mode = s.mode := by
  unfold filterFile
  cases file with
  | none => rfl
  | some f =>
    by_cases hf : f = ""
    · simp [hf]
    · cases owner with
      | none => simp [hf]
      | some o =>
        by_cases ho : o = ""
        · simp [hf, ho]
        · simp [hf, ho]

theorem filterFile_throttling (cfg : FWConfig) (s : WatcherState)
    (file owner : Option String) :
    (filterFile cfg s file owner).throttling = s.throttling := by
  unfold filterFile
  cases file with
  | none => rfl
  | some f =>
    by_cases hf : f = ""
    · simp [hf]
    · cases owner with
      | none => simp [hf]
      | some o =>
        by_cases ho : o = ""
        · simp [hf, ho]
        · simp [hf, ho]

theorem unfilterFold_pres (deps : List String) (s : WatcherState) :
    let r := deps.foldl (fun acc d =>
      { acc with filteredFiles := sDelete acc.filteredFiles d,
                 depencencyOwners := alDelete acc.depencencyOwners d }) s
    r.mode = s.mode ∧ r.throttle = s.throttle ∧ r.throttling = s.throttling
      ∧ r.watchers = s.watchers ∧ r.ownerDependencies = s.ownerDependencies := by
  induction deps generalizing s with
  | nil => exact ⟨rfl, rfl, rfl, rfl, rfl⟩
  | cons d rest ih => exact ih _

theorem unfilterOne_mode (s : WatcherState) (owner : String) :
    (unfilterOne s owner).mode = s.mode := by
  unfold unfilterOne
  exact (unfilterFold_pres _ s).1

theorem unfilterFilesOwnedBy_mode (owners : List String) (s : WatcherState) :
    (unfilterFilesOwnedBy s owners).mode = s.mode := by
  induction owners generalizing s with
  | nil => rfl
  | cons o rest ih =>
    unfold unfilterFilesOwnedBy at ih ⊢
    rw [List.foldl_cons, ih]
    exact unfilterOne_mode s o

theorem applyOp_mode (cfg : FWConfig) (s : WatcherState) (op : WOp) :
    (applyOp cfg s op).mode = s.mode := by
  cases op with
  | filterFile file owner => exact filterFile_mode cfg s file owner
  | unfilterFilesOwnedBy owners => exact unfilterFilesOwnedBy_mode owners s
  | clearFileFilters => rfl
  | clear => rfl
  | watchPath p r => exact watchPath_mode s p r

theorem runOps_mode (cfg : FWConfig) (ops : List WOp) (s : WatcherState) :
    (runOps cfg s ops).mode = s.mode := by
  induction ops generalizing s with
  | nil => rfl
  | cons op rest ih =>
    unfold runOps at ih ⊢
    rw [List.foldl_cons, ih]
    exact applyOp_mode cfg s op

theorem unfilterFold_filtered_false (deps : List String) (s : WatcherState)
    (trigger : String) (h : s.filteredFiles.contains trigger = false) :
    ((deps.foldl (fun acc d =>
      { acc with filteredFiles := sDelete acc.filteredFiles d,
                 depencencyOwners := alDelete acc.depencencyOwners d }) s)
        |>.filteredFiles |>.contains trigger) = false := by
  induction deps generalizing s with
  | nil => exact h
  | cons d rest ih =>
    rw [List.foldl_cons]
    exact ih _ (contains_sDelete_false _ d trigger h)

theorem unfilterOne_filtered_false (s : WatcherState) (owner trigger : String)
    (h : s.filteredFiles.contains trigger = false) :
    (unfilterOne s owner).filteredFiles.contains trigger = false := by
  unfold unfilterOne
  exact contains_sDelete_false _ owner trigger
    (unfilterFold_filtered_false _ s trigger h)

theorem unfilterFilesOwnedBy_filtered_false (owners : List String)
    (s : WatcherState) (trigger : String)
    (h : s.filteredFiles.contains trigger = false) :
    (unfilterFilesOwnedBy s owners).filteredFiles.contains trigger = false := by
  induction owners generalizing s with
  | nil => exact h
  | cons o rest ih =>
    unfold unfilterFilesOwnedBy at ih ⊢
    rw [List.foldl_cons]
    exact ih _ (unfilterOne_filtered_false s o trigger h)

theorem applyOp_filtered_false (cfg : FWConfig) (s : WatcherState) (op : WOp)
    (trigger : String) (h : s.filteredFiles.contains trigger = false)
    (hop : opAddsFile trigger op = false) :
    (applyOp cfg s op).filteredFiles.contains trigger = false := by
  cases op with
  | filterFile file owner =>
    cases file with
    | none => exact h
    | some f =>
      by_cases hf : f = ""
      · subst hf
        rw [show applyOp cfg s (WOp.filterFile (some "") owner)
              = filterFile cfg s (some "") owner from rfl,
           filterFile_some_empty]
        exact h
      · have hft : ¬(trigger = f) := by
          intro he
          rw [show opAddsFile trigger (WOp.filterFile (some f) owner)
                = (f == trigger) from rfl] at hop
          simp [he] at hop
        rw [show applyOp cfg s (WOp.filterFile (some f) owner)
              = filterFile cfg s (some f) owner from rfl,
           filterFile_filteredFiles cfg s f owner hf, contains_sInsert]
        rw [h]
        simp [hft]
  | unfilterFilesOwnedBy owners =>
    exact unfilterFilesOwnedBy_filtered_false owners s trigger h
  | clearFileFilters => simp [applyOp, clearFileFilters]
  | clear => simp [applyOp, clearAll]
  | watchPath p r =>
    rw [show applyOp cfg s (WOp.watchPath p r) = watchPath s p r from rfl,
       watchPath_filteredFiles]
    exact h

theorem runOps_filtered_false (cfg : FWConfig) (ops : List WOp)
    (s : WatcherState) (trigger : String)
    (h : s.filteredFiles.contains trigger = false)
    (hops : ops.all (fun op => !opAddsFile trigger op) = true) :
    (runOps cfg s ops).filteredFiles.contains trigger = false := by
  induction ops generalizing s with
  | nil => exact h
  | cons op rest ih =>
    rw [List.all_cons, Bool.and_eq_true] at hops
    unfold runOps at ih ⊢
    rw [List.foldl_cons]
    refine ih _ (applyOp_filtered_false cfg s op trigger h ?_) hops.2
    have := hops.1
    cases hv : opAddsFile trigger op
    · rfl
    · rw [hv] at this
      simp at this

theorem symm_empty_maps (s : WatcherState)
    (h1 : s.depencencyOwners = []) (h2 : s.ownerDependencies = []) : Symm s := by
  intro f o
  rw [h1, h2]
  rfl

theorem symm_of_eq_graph (s s' : WatcherState)
    (hDO : s'.depencencyOwners = s.depencencyOwners)
    (hOD : s'.ownerDependencies = s.ownerDependencies)
    (h : Symm s) : Symm s' := by
  intro f o
  rw [hDO, hOD]
  exact h f o

theorem mem_sInsert_self (l : List String) (x : String) : x ∈ sInsert l x := by
  unfold sInsert
  by_cases h : l.contains x = true
  · rw [if_pos h]
    rw [contains_eq_decide] at h
    exact of_decide_eq_true h
  · rw [if_neg h]
    exact List.mem_append_right l (List.mem_singleton.mpr rfl)

theorem symm_filterFile_step (cfg : FWConfig) (s : WatcherState) (f o : String)
    (hf : f ≠ "") (ho : o ≠ "") (hsymm : Symm s)
    (hkf : alGet s.ownerDependencies f = none)
    (hko : alGet s.ownerDependencies o = none) :
    Symm (filterFile cfg s (some f) (some o)) := by
  obtain ⟨hDO, hOD⟩ := filterFile_graph cfg s f o hf ho
  intro f' o'
  rw [hOD, hDO, alGet_alSet, alGet_alSet]
  by_cases ho' : o' = o
  · rw [if_pos ho', hkf]
    simp only [Option.getD_some, Option.getD_none, contains_sInsert,
      List.contains_nil, Bool.false_or]
    by_cases hf' : f' = f
    · rw [if_pos hf', ho']
      simp [hf', mem_sInsert_self]
    · rw [if_neg hf']
      subst ho'
      have hs := hsymm f' o'
      rw [hko] at hs
      simp only [Option.getD_none, List.contains_nil] at hs
      rw [← hs]
      simp [hf']
  · rw [if_neg ho']
    by_cases hf' : f' = f
    · rw [if_pos hf']
      simp only [Option.getD_some, contains_sInsert]
      subst hf'
      rw [hsymm f' o']
      simp [ho']
    · rw [if_neg hf']
      exact hsymm f' o'

theorem symm_runOps_aux (cfg : FWConfig) :
    ∀ (ops : List WOp) (s : WatcherState),
      Symm s →
      ops.all noUnfilter = true →
      ((graphPairs ops).map Prod.snd).Nodup →
      (∀ p ∈ graphPairs ops, ∀ q ∈ graphPairs ops, p.1 ≠ q.2) →
      (∀ p ∈ graphPairs ops, alGet s.ownerDependencies p.1 = none
                           ∧ alGet s.ownerDependencies p.2 = none) →
      Symm (runOps cfg s ops) := by
  intro ops
  induction ops with
  | nil => intro s h _ _ _ _; exact h
  | cons op rest ih =>
    intro s hsymm hall hnodup hdisj hkeys
    rw [List.all_cons, Bool.and_eq_true] at hall
    have hrun : runOps cfg s (op :: rest) = runOps cfg (applyOp cfg s op) rest := by
      unfold runOps
      rw [List.foldl_cons]
    rw [hrun]
    by_cases hpair : pairOf op = none
    · -- the operation records no graph pair
      have hgp : graphPairs (op :: rest) = graphPairs rest := by
        unfold graphPairs
        rw [List.filterMap_cons, hpair]
      rw [hgp] at hnodup hdisj hkeys
      -- show it leaves the graph intact (or empties it), then recurse
      cases op with
      | filterFile file owner =>
        have hgraph : (applyOp cfg s (WOp.filterFile file owner)).depencencyOwners
              = s.depencencyOwners
            ∧ (applyOp cfg s (WOp.filterFile file owner)).ownerDependencies
              = s.ownerDependencies := by
          cases file with
          | none => exact ⟨rfl, rfl⟩
          | some f =>
            cases owner with
            | none => exact filterFile_graph_no_owner cfg s f none (Or.inl rfl)
            | some o =>
              by_cases hf : f = ""
              · subst hf
                rw [show applyOp cfg s (WOp.filterFile (some "") (some o))
                      = filterFile cfg s (some "") (some o) from rfl,
                   filterFile_some_empty]
                exact ⟨rfl, rfl⟩
              · have ho : o = "" := by
                  unfold pairOf at hpair
                  by_cases ho : o = ""
                  · exact ho
                  · simp [hf, ho] at hpair
                subst ho
                exact filterFile_graph_no_owner cfg s f (some "") (Or.inr rfl)
        refine ih _ (symm_of_eq_graph s _ hgraph.1 hgraph.2 hsymm) hall.2 hnodup hdisj ?_
        intro p hp
        rw [hgraph.2]
        exact hkeys p hp
      | unfilterFilesOwnedBy owners =>
        exfalso
        simp [noUnfilter] at hall
      | clearFileFilters =>
        refine ih _ (symm_of_eq_graph s _ rfl rfl hsymm) hall.2 hnodup hdisj ?_
        intro p hp
        exact hkeys p hp
      | clear =>
        refine ih _ (symm_empty_maps _ rfl rfl) hall.2 hnodup hdisj ?_
        intro p _
        exact ⟨rfl, rfl⟩
      | watchPath path recursive =>
        refine ih _ (symm_of_eq_graph s _ (watchPath_depencencyOwners s path recursive)
          (watchPath_ownerDependencies s path recursive) hsymm) hall.2 hnodup hdisj ?_
        intro p hp
        rw [show (applyOp cfg s (WOp.watchPath path recursive)) = watchPath s path recursive from rfl,
           watchPath_ownerDependencies]
        exact hkeys p hp
    · -- the operation records the pair (f, o)
      obtain ⟨fo, hfo⟩ := Option.ne_none_iff_exists'.mp hpair
      obtain ⟨f, o⟩ := fo
      -- only a doubly-truthy filterFile produces a pair
      cases op with
      | unfilterFilesOwnedBy owners => simp [pairOf] at hfo
      | clearFileFilters => simp [pairOf] at hfo
      | clear => simp [pairOf] at hfo
      | watchPath path recursive => simp [pairOf] at hfo
      | filterFile file owner =>
        cases file with
        | none => simp [pairOf] at hfo
        | some f' =>
          cases owner with
          | none => simp [pairOf] at hfo
          | some o' =>
            by_cases hfe : f' = "" ∨ o' = ""
            · rw [show pairOf (WOp.filterFile (some f') (some o'))
                    = if f' = "" ∨ o' = "" then none else some (f', o') from rfl,
                 if_pos hfe] at hfo
              exact absurd hfo (by simp)
            · push_neg at hfe
              rw [show pairOf (WOp.filterFile (some f') (some o'))
                    = if f' = "" ∨ o' = "" then none else some (f', o') from rfl,
                 if_neg (by push_neg; exact hfe)] at hfo
              have hff : f' = f ∧ o' = o := by
                have := Option.some.inj hfo
                exact ⟨congrArg Prod.fst this, congrArg Prod.snd this⟩
              obtain ⟨hf1, ho1⟩ := hff
              subst hf1
              subst ho1
              have hpv : pairOf (WOp.filterFile (some f') (some o'))
                  = some (f', o') := by
                rw [show pairOf (WOp.filterFile (some f') (some o'))
                      = if f' = "" ∨ o' = "" then none else some (f', o') from rfl,
                   if_neg (by push_neg; exact hfe)]
              have hgp : graphPairs (WOp.filterFile (some f') (some o') :: rest)
                  = (f', o') :: graphPairs rest := by
                unfold graphPairs
                rw [List.filterMap_cons, hpv]
              rw [hgp] at hnodup hdisj hkeys
              have hhead : (f', o') ∈ (f', o') :: graphPairs rest :=
                List.mem_cons_self _ _
              have hkey0 := hkeys (f', o') hhead
              have happ : applyOp cfg s (WOp.filterFile (some f') (some o'))
                  = filterFile cfg s (some f') (some o') := rfl
              rw [happ]
              have hOD := (filterFile_graph cfg s f' o' hfe.1 hfe.2).2
              rw [List.map_cons, List.nodup_cons] at hnodup
              refine ih _ (symm_filterFile_step cfg s f' o' hfe.1 hfe.2 hsymm
                hkey0.1 hkey0.2) hall.2 hnodup.2 ?_ ?_
              · intro p hp q hq
                exact hdisj p (List.mem_cons_of_mem _ hp) q (List.mem_cons_of_mem _ hq)
              · intro p hp
                have hp1o : p.1 ≠ o' :=
                  hdisj p (List.mem_cons_of_mem _ hp) (f', o') hhead
                have hp2o : p.2 ≠ o' := by
                  intro he
                  have hm : p.2 ∈ List.map Prod.snd (graphPairs rest) :=
                    List.mem_map_of_mem Prod.snd hp
                  rw [he] at hm
                  exact hnodup.1 hm
                have hk := hkeys p (List.mem_cons_of_mem _ hp)
                constructor
                · rw [hOD, alGet_alSet, if_neg hp1o]
                  exact hk.1
                · rw [hOD, alGet_alSet, if_neg hp2o]
                  exact hk.2

theorem onChangeAt_no_emit (s : WatcherState) (now : Nat) (trigger : String)
    (h : throttledNow (expireThrottle s.throttling now) trigger = true) :
    onChangeAt s now trigger
      = ({ s with throttling := expireThrottle s.throttling now }, []) := by
  unfold onChangeAt
  simp [h]

theorem onChangeAt_filtered_out (s : WatcherState) (now : Nat) (trigger : String)
    (h1 : throttledNow (expireThrottle s.throttling now) trigger = false)
    (h2 : (s.mode == WatchMode.filter && !(s.filteredFiles.contains trigger)) = true) :
    onChangeAt s now trigger
      = ({ s with throttling := expireThrottle s.throttling now }, []) := by
  unfold onChangeAt
  simp only [h1, h2]
  simp

theorem onChangeAt_emit (s : WatcherState) (now : Nat) (trigger : String)
    (h1 : throttledNow (expireThrottle s.throttling now) trigger = false)
    (h2 : (s.mode == WatchMode.filter && !(s.filteredFiles.contains trigger)) = false) :
    onChangeAt s now trigger
      = ({ s with throttling :=
             expireThrottle s.throttling now ++ [(trigger, now + s.throttle)] },
         [(now, trigger, alGet s.depencencyOwners trigger)]) := by
  unfold onChangeAt
  simp only [h1, h2]
  simp

theorem eventsFor_append (trigger : String) (a b : List WEvent) :
    eventsFor trigger (a ++ b) = eventsFor trigger a ++ eventsFor trigger b := by
  simp [eventsFor, List.filter_append]

theorem eventsFor_single (trigger : String) (t : Nat) (g : String)
    (ow : Option (List String)) :
    eventsFor trigger [(t, g, ow)] = if g = trigger then [t] else [] := by
  by_cases h : g = trigger <;> simp [eventsFor, h]

theorem runNotifs_cons (s : WatcherState) (t : Nat) (g : String)
    (rest : List (Nat × String)) :
    runNotifs s ((t, g) :: rest)
      = ((runNotifs (onChangeAt s t g).1 rest).1,
         (onChangeAt s t g).2 ++ (runNotifs (onChangeAt s t g).1 rest).2) := by
  rfl

theorem runNotifs_sep_aux (notifs : List (Nat × String)) :
    ∀ (s : WatcherState) (tau : Nat) (trigger : String),
      List.Chain' (fun a b => a ≤ b) (tau :: notifs.map (fun n => n.1)) →
      List.Chain' (fun a b => a + s.throttle ≤ b)
          (eventsFor trigger (runNotifs s notifs).2)
        ∧ (∀ e ∈ s.throttling, e.1 = trigger →
            ∀ tv ∈ eventsFor trigger (runNotifs s notifs).2, e.2 ≤ tv)
        ∧ (∀ tv ∈ eventsFor trigger (runNotifs s notifs).2, tau ≤ tv) := by
  induction notifs with
  | nil =>
    intro s tau trigger _
    refine ⟨by simp [runNotifs, eventsFor], ?_, ?_⟩
    · intro e _ _ tv htv
      simp [runNotifs, eventsFor] at htv
    · intro tv htv
      simp [runNotifs, eventsFor] at htv
  | cons n rest ih =>
    obtain ⟨t, g⟩ := n
    intro s tau trigger hchain
    rw [List.map_cons] at hchain
    have htau : tau ≤ t := (List.chain'_cons.mp hchain).1
    have hchainT : List.Chain' (fun a b => a ≤ b) (t :: rest.map (fun n => n.1)) :=
      (List.chain'_cons.mp hchain).2
    rw [runNotifs_cons, eventsFor_append]
    by_cases h1 : throttledNow (expireThrottle s.throttling t) g = true
    · -- the notification is throttled away
      rw [onChangeAt_no_emit s t g h1]
      obtain ⟨ihA, ihB, ihC⟩ :=
        ih { s with throttling := expireThrottle s.throttling t } t trigger hchainT
      refine ⟨by simpa [eventsFor] using ihA, ?_, ?_⟩
      · intro e he hek tv htv
        simp only [eventsFor, List.filter_nil, List.map_nil, List.nil_append] at htv ⊢
        by_cases hsurv : t < e.2
        · exact ihB e (List.mem_filter.mpr ⟨he, by simp [hsurv]⟩) hek tv htv
        · exact le_trans (Nat.le_of_not_lt hsurv) (ihC tv htv)
      · intro tv htv
        simp only [eventsFor, List.filter_nil, List.map_nil, List.nil_append] at htv
        exact le_trans htau (ihC tv htv)
    · rw [Bool.not_eq_true] at h1
      by_cases h2 : (s.mode == WatchMode.filter && !(s.filteredFiles.contains g)) = true
      · -- the notification is filtered out
        rw [onChangeAt_filtered_out s t g h1 h2]
        obtain ⟨ihA, ihB, ihC⟩ :=
          ih { s with throttling := expireThrottle s.throttling t } t trigger hchainT
        refine ⟨by simpa [eventsFor] using ihA, ?_, ?_⟩
        · intro e he hek tv htv
          simp only [eventsFor, List.filter_nil, List.map_nil, List.nil_append] at htv ⊢
          by_cases hsurv : t < e.2
          · exact ihB e (List.mem_filter.mpr ⟨he, by simp [hsurv]⟩) hek tv htv
          · exact le_trans (Nat.le_of_not_lt hsurv) (ihC tv htv)
        · intro tv htv
          simp only [eventsFor, List.filter_nil, List.map_nil, List.nil_append] at htv
          exact le_trans htau (ihC tv htv)
      · rw [Bool.not_eq_true] at h2
        -- the notification is emitted
        rw [onChangeAt_emit s t g h1 h2]
        dsimp only
        obtain ⟨ihA, ihB, ihC⟩ :=
          ih { s with throttling :=
                 expireThrottle s.throttling t ++ [(g, t + s.throttle)] }
            t trigger hchainT
        by_cases hg : g = trigger
        · subst hg
          rw [eventsFor_single, if_pos rfl]
          have hsep := ihB (g, t + s.throttle)
            (List.mem_append_right _ (List.mem_singleton.mpr rfl)) rfl
          have hexpired : ∀ e ∈ s.throttling, e.1 = g → e.2 ≤ t := by
            intro e he hek
            by_contra hlt
            rw [Nat.not_le] at hlt
            have hmem : e ∈ expireThrottle s.throttling t :=
              List.mem_filter.mpr ⟨he, by simp [hlt]⟩
            have hthr : throttledNow (expireThrottle s.throttling t) g = true := by
              unfold throttledNow
              exact List.any_eq_true.mpr ⟨e, hmem, by simp [hek]⟩
            rw [h1] at hthr
            exact absurd hthr (by simp)
          refine ⟨?_, ?_, ?_⟩
          · refine List.chain'_cons'.mpr ⟨?_, ihA⟩
            intro y hy
            exact hsep y (List.mem_of_mem_head? hy)
          · intro e he hek tv htv
            rw [List.singleton_append, List.mem_cons] at htv
            rcases htv with htv | htv
            · subst htv
              exact hexpired e he hek
            · exact le_trans (hexpired e he hek) (ihC tv htv)
          · intro tv htv
            rw [List.singleton_append, List.mem_cons] at htv
            rcases htv with htv | htv
            · subst htv
              exact htau
            · exact le_trans htau (ihC tv htv)
        · rw [eventsFor_single, if_neg hg, List.nil_append]
          refine ⟨ihA, ?_, ?_⟩
          · intro e he hek tv htv
            by_cases hsurv : t < e.2
            · exact ihB e (List.mem_append_left _
                (List.mem_filter.mpr ⟨he, by simp [hsurv]⟩)) hek tv htv
            · exact le_trans (Nat.le_of_not_lt hsurv) (ihC tv htv)
          · intro tv htv
            exact le_trans htau (ihC tv htv)

theorem forEachFF_threw (step : WatcherState → JSItem → Option WatcherState)
    (thr : JSItem → Bool)
    (hstep : ∀ s it, step s it = none ↔ thr it = true) :
    ∀ (items : List JSItem) (s : WatcherState),
      (forEachFF step s items).2 = items.any thr := by
  intro items
  induction items with
  | nil => intro s; rfl
  | cons it rest ih =>
    intro s
    rw [List.any_cons]
    by_cases h : thr it = true
    · have hn : step s it = none := (hstep s it).mpr h
      simp [forEachFF, hn, h]
    · have hne : step s it ≠ none := fun hc => h ((hstep s it).mp hc)
      obtain ⟨s', hs'⟩ := Option.ne_none_iff_exists'.mp hne
      have hf : thr it = false := by
        revert h
        cases thr it <;> simp
      simp [forEachFF, hs', ih, hf]

theorem requireStep_none_iff (cfg : FWConfig) (key : Option String)
    (s : WatcherState) (it : JSItem) :
    requireStep cfg key s it = none ↔ itemThrowsReq it = true := by
  cases it <;> simp [requireStep, itemThrowsReq]

theorem importStep_none_iff (cfg : FWConfig) (key : Option String)
    (s : WatcherState) (it : JSItem) :
    importStep cfg key s it = none ↔ itemThrowsImp cfg.u2p it = true := by
  cases it with
  | falsy => simp [importStep, itemThrowsImp]
  | bad => simp [importStep, itemThrowsImp]
  | str u =>
    cases hu : cfg.u2p u <;> simp [importStep, itemThrowsImp, hu]

theorem forEachFF_require_threw (cfg : FWConfig) (key : Option String)
    (items : List JSItem) (s : WatcherState) :
    (forEachFF (requireStep cfg key) s items).2 = items.any itemThrowsReq :=
  forEachFF_threw _ _ (requireStep_none_iff cfg key) items s

theorem forEachFF_import_threw (cfg : FWConfig) (key : Option String)
    (items : List JSItem) (s : WatcherState) :
    (forEachFF (importStep cfg key) s items).2 = items.any (itemThrowsImp cfg.u2p) :=
  forEachFF_threw _ _ (importStep_none_iff cfg key) items s

theorem processImport_sent (cfg : FWConfig) (key : Option String)
    (s : WatcherState) (imp : JSField) (sendInitial : Bool) :
    (processImport cfg key s imp sendInitial).2.1
      = ((sendInitial || isArrF imp) && fieldOk (itemThrowsImp cfg.u2p) imp
          && cfg.hasSend) := by
  cases imp with
  | absent => simp [processImport, isArrF, fieldOk]
  | nonArray => simp [processImport, isArrF, fieldOk]
  | arr items =>
    by_cases h : items.any (itemThrowsImp cfg.u2p) = true
    · simp [processImport, forEachFF_import_threw, h, fieldOk, isArrF]
    · have hf : items.any (itemThrowsImp cfg.u2p) = false := by
        revert h
        cases items.any (itemThrowsImp cfg.u2p) <;> simp
      simp [processImport, forEachFF_import_threw, hf, fieldOk, isArrF]

/-- Claim C3, counterexample: a message whose `watch:require` key holds an
empty array makes the handler send `watch:restarted` upstream even though
every recognized list is empty, refuting the claimed "non-empty" iff. -/
theorem fw_C3_cex :
    (tryBody cfgA none (initState WatchMode.filter 500)
        (JSMsg.obj (JSField.arr []) JSField.absent)).2.1 = true
    ∧ msgHasNonemptyList (JSMsg.obj (JSField.arr []) JSField.absent) = false
    ∧ cfgA.hasSend = true := by
  refine ⟨?_, rfl, rfl⟩
  rfl

/-- Claim C3, amended: in filter mode the handler sends `watch:restarted`
upstream after a child message if and only if the upstream channel exists,
no error was raised while processing the message, and at least one of the
recognized keys holds an array — of any length, possibly empty. -/
theorem fw_C3 (cfg : FWConfig) (key : Option String) (s : WatcherState)
    (msg : JSMsg) :
    (tryBody cfg key s msg).2.1
      = (cfg.hasSend && msgOk cfg.u2p msg && msgRecognized msg) := by
  cases msg with
  | nullish => simp [tryBody, msgOk, msgRecognized]
  | obj req imp =>
    cases req with
    | absent =>
      rw [show tryBody cfg key s (JSMsg.obj JSField.absent imp)
            = processImport cfg key s imp false from rfl]
      rw [processImport_sent]
      cases imp with
      | absent => cases cfg.hasSend <;> simp [msgOk, msgRecognized, fieldOk, isArrF]
      | nonArray => cases cfg.hasSend <;> simp [msgOk, msgRecognized, fieldOk, isArrF]
      | arr items2 =>
        cases cfg.hasSend <;> cases h2 : items2.any (itemThrowsImp cfg.u2p) <;>
          simp [msgOk, msgRecognized, fieldOk, isArrF, h2]
    | nonArray =>
      rw [show tryBody cfg key s (JSMsg.obj JSField.nonArray imp)
            = processImport cfg key s imp false from rfl]
      rw [processImport_sent]
      cases imp with
      | absent => cases cfg.hasSend <;> simp [msgOk, msgRecognized, fieldOk, isArrF]
      | nonArray => cases cfg.hasSend <;> simp [msgOk, msgRecognized, fieldOk, isArrF]
      | arr items2 =>
        cases cfg.hasSend <;> cases h2 : items2.any (itemThrowsImp cfg.u2p) <;>
          simp [msgOk, msgRecognized, fieldOk, isArrF, h2]
    | arr items =>
      by_cases hreq : items.any itemThrowsReq = true
      · simp [tryBody, forEachFF_require_threw, hreq, msgOk, msgRecognized,
          fieldOk, isArrF]
      · have hreqf : items.any itemThrowsReq = false := by
          revert hreq
          cases items.any itemThrowsReq <;> simp
        simp only [tryBody, forEachFF_require_threw, hreqf]
        rw [if_neg (by simp)]
        rw [processImport_sent]
        cases imp with
        | absent =>
          cases cfg.hasSend <;>
            simp [msgOk, msgRecognized, fieldOk, isArrF, hreqf]
        | nonArray =>
          cases cfg.hasSend <;>
            simp [msgOk, msgRecognized, fieldOk, isArrF, hreqf]
        | arr items2 =>
          cases cfg.hasSend <;> cases h2 : items2.any (itemThrowsImp cfg.u2p) <;>
            simp [msgOk, msgRecognized, fieldOk, isArrF, h2, hreqf]

/-- Claim C4, counterexample: when the watcher itself was spawned with an
upstream IPC channel (`wantsPassthroughIPC` is true), `destroyIPC` on a
child for which `setupIPC` never ran reads `parentToChild` off `undefined`
and throws, rather than being a no-op. -/
theorem fw_C4_cex :
    destroyIPC true { processListeners := [], childListeners := [] }
        { ipcMessages := none } = Except.error () := rfl

/-- Claim C4, amended: `destroyIPC(child)` is a no-op (no error, no state
change) whenever the watcher does not want passthrough IPC — which is the
only situation in which pairing can have been skipped for every child; when
passthrough IPC is wanted and `setupIPC` never ran for the child, the call
throws a `TypeError` instead. -/
theorem fw_C4 :
    (∀ (p : ProcState) (c : ChildState), destroyIPC false p c = Except.ok p)
  ∧ (∀ p : ProcState,
      destroyIPC true p { ipcMessages := none } = Except.error ()) :=
  ⟨fun _ _ => rfl, fun _ => rfl⟩

/-- Claim C9: for every child-IPC message — malformed ones included — the
installed listener returns normally (the try/catch swallows every error),
so a whole stream of messages is always processed to completion, one
result per message. -/
theorem fw_C9 (cfg : FWConfig) (key : Option String) (s : WatcherState)
    (msgs : List JSMsg) :
    ∃ r : WatcherState × List Bool,
      runMessages cfg key s msgs = some r ∧ r.2.length = msgs.length := by
  induction msgs generalizing s with
  | nil => exact ⟨(s, []), rfl, rfl⟩
  | cons m rest ih =>
    obtain ⟨r, hr, hl⟩ := ih ((tryBody cfg key s m).1)
    refine ⟨(r.1, (tryBody cfg key s m).2.1 :: r.2), ?_, by simp [hl]⟩
    simp [runMessages, messageListener, hr]

/-- Claim C10: `filterFile` with a falsy file argument (`undefined`/`null`
or the empty string) is a complete no-op for every state and every owner
argument. -/
theorem fw_C10 (cfg : FWConfig) (s : WatcherState) (owner : Option String) :
    filterFile cfg s none owner = s ∧ filterFile cfg s (some "") owner = s :=
  ⟨filterFile_none cfg s owner, filterFile_some_empty cfg s owner⟩

/-- Claim C1, counterexample: two `filterFile` calls with the same owner
leave the graph asymmetric — `"o"` is recorded as an owner of `"/a/x"` in
`#depencencyOwners`, yet `"/a/x"` is no longer in `#ownerDependencies["o"]`,
because the source fetches `#ownerDependencies.get(file)` instead of
`.get(owner)` and so overwrites the owner's set on every call. -/
theorem fw_C1_cex :
    ¬ Symm (runOps cfgA (initState WatchMode.filter 500)
        [WOp.filterFile (some ("/a/x")) (some ("o")),
         WOp.filterFile (some ("/a/y")) (some ("o"))]) :=
  fun h => absurd (h ("/a/x") ("o")) (by decide)

/-- Claim C1, amended: the dependency graph is symmetric after any sequence
of `filterFile`, `watchPath`, `clearFileFilters` and `clear` operations
(the `watchChildProcessModules`-driven registrations being `filterFile`
calls) in which no two recorded (file, owner) pairs share an owner and no
recorded file equals a recorded owner; `unfilterFilesOwnedBy` is excluded,
since it deletes a shared file's owner set while other owners may keep the
file among their dependencies. -/
theorem fw_C1 (cfg : FWConfig) (mode : WatchMode) (throttle : Nat)
    (ops : List WOp)
    (h1 : ops.all noUnfilter = true)
    (h2 : ((graphPairs ops).map Prod.snd).Nodup)
    (h3 : ∀ p ∈ graphPairs ops, ∀ q ∈ graphPairs ops, p.1 ≠ q.2) :
    Symm (runOps cfg (initState mode throttle) ops) :=
  symm_runOps_aux cfg ops (initState mode throttle)
    (symm_empty_maps _ rfl rfl) h1 h2 h3 (fun _ _ => ⟨rfl, rfl⟩)

/-- Claim C1, witness for the amended theorem at a concrete two-owner
sequence. -/
theorem fw_C1_witness :
    (([WOp.filterFile (some ("/x")) (some ("o1")),
       WOp.filterFile (some ("/y")) (some ("o2"))].all noUnfilter) = true)
    ∧ ((graphPairs [WOp.filterFile (some ("/x")) (some ("o1")),
          WOp.filterFile (some ("/y")) (some ("o2"))]).map Prod.snd).Nodup
    ∧ (∀ p ∈ graphPairs [WOp.filterFile (some ("/x")) (some ("o1")),
          WOp.filterFile (some ("/y")) (some ("o2"))],
        ∀ q ∈ graphPairs [WOp.filterFile (some ("/x")) (some ("o1")),
          WOp.filterFile (some ("/y")) (some ("o2"))], p.1 ≠ q.2)
    ∧ Symm (runOps cfgA (initState WatchMode.filter 500)
        [WOp.filterFile (some ("/x")) (some ("o1")),
         WOp.filterFile (some ("/y")) (some ("o2"))]) :=
  ⟨by decide, by decide, by decide,
   fw_C1 cfgA WatchMode.filter 500 _ (by decide) (by decide) (by decide)⟩

/-- Claim C2, code-bug evaluation: after `filterFile("/a/x","o")` then
`filterFile("/a/y","o")`, the owner's recorded dependency set holds only
the most recently registered file `"/a/y"` (line 116 fetches
`#ownerDependencies.get(file)` instead of `.get(owner)`, so each call
overwrites the set), hence `unfilterFilesOwnedBy(["o"])` removes `"/a/y"`
— a subsequent notification for it emits nothing — but fails to remove
`"/a/x"` from the filtered set, so a subsequent notification for `"/a/x"`
in filter mode still emits a changed event; the claim says it must not,
for every file registered for the owner. -/
theorem fw_C2_eval :
    (((alGet (runOps cfgA (initState WatchMode.filter 500)
        [WOp.filterFile (some ("/a/x")) (some ("o")),
         WOp.filterFile (some ("/a/y")) (some ("o"))]).ownerDependencies
        ("o")).getD []) = ["/a/y"])
    ∧ ((runOps cfgA (initState WatchMode.filter 500)
        [WOp.filterFile (some ("/a/x")) (some ("o")),
         WOp.filterFile (some ("/a/y")) (some ("o")),
         WOp.unfilterFilesOwnedBy ["o"]]).filteredFiles.contains ("/a/y")
       = false)
    ∧ ((onChangeAt (runOps cfgA (initState WatchMode.filter 500)
        [WOp.filterFile (some ("/a/x")) (some ("o")),
         WOp.filterFile (some ("/a/y")) (some ("o")),
         WOp.unfilterFilesOwnedBy ["o"]]) 0 ("/a/y")).2 = [])
    ∧ ((runOps cfgA (initState WatchMode.filter 500)
        [WOp.filterFile (some ("/a/x")) (some ("o")),
         WOp.filterFile (some ("/a/y")) (some ("o")),
         WOp.unfilterFilesOwnedBy ["o"]]).filteredFiles.contains ("/a/x")
       = true)
    ∧ (onChangeAt (runOps cfgA (initState WatchMode.filter 500)
        [WOp.filterFile (some ("/a/x")) (some ("o")),
         WOp.filterFile (some ("/a/y")) (some ("o")),
         WOp.unfilterFilesOwnedBy ["o"]]) 0 ("/a/x")).2
       = [(0, "/a/x", some ["o"])] := by
  refine ⟨rfl, rfl, rfl, rfl, rfl⟩

/-- Claim C5: `watchPath(p)` is a no-op, and in particular never grows
`watchedPaths`, whenever `p` already has its own entry or some existing
recursive entry's root is a string prefix of `p`. -/
theorem fw_C5 (s : WatcherState) (p : String) (recursive : Bool)
    (h : (∃ e ∈ s.watchers, e.1 = p)
       ∨ (∃ e ∈ s.watchers, e.2 = true ∧ jsStartsWith p e.1 = true)) :
    watchPath s p recursive = s
      ∧ (watchedPaths (watchPath s p recursive)).length
          = (watchedPaths s).length := by
  have hw : isPathWatched s.watchers p = true := by
    unfold isPathWatched
    rcases h with ⟨e, he, hep⟩ | ⟨e, he, her, hpre⟩
    · have hany : s.watchers.any (fun e => e.1 == p) = true :=
        List.any_eq_true.mpr ⟨e, he, by simp [hep]⟩
      rw [if_pos hany]
    · by_cases hany : s.watchers.any (fun e => e.1 == p) = true
      · rw [if_pos hany]
      · rw [if_neg hany]
        exact List.any_eq_true.mpr ⟨e, he, by simp [her, hpre]⟩
  have heq : watchPath s p recursive = s := by
    unfold watchPath
    rw [if_pos hw]
  exact ⟨heq, by rw [heq]⟩

/-- Claim C5, witness: a recursive watch on `/a` already covers `/a/b`. -/
theorem fw_C5_witness :
    ((∃ e ∈ (⟨[("/a", true)], [], [], [], [], WatchMode.filter, 500⟩ : WatcherState).watchers,
        e.1 = "/a/b")
      ∨ (∃ e ∈ (⟨[("/a", true)], [], [], [], [], WatchMode.filter, 500⟩ : WatcherState).watchers,
          e.2 = true ∧ jsStartsWith ("/a/b") e.1 = true))
    ∧ watchPath (⟨[("/a", true)], [], [], [], [], WatchMode.filter, 500⟩ : WatcherState)
        ("/a/b") true
      = (⟨[("/a", true)], [], [], [], [], WatchMode.filter, 500⟩ : WatcherState)
    ∧ (watchedPaths (watchPath (⟨[("/a", true)], [], [], [], [], WatchMode.filter, 500⟩ : WatcherState) ("/a/b") true)).length
      = (watchedPaths (⟨[("/a", true)], [], [], [], [], WatchMode.filter, 500⟩ : WatcherState)).length := by
  refine ⟨by decide, ?_⟩
  have := fw_C5 (⟨[("/a", true)], [], [], [], [], WatchMode.filter, 500⟩ : WatcherState)
    ("/a/b") true (by decide)
  exact this

/-- Claim C6: on a registry holding an entry on a strict descendant `d` of
an uncovered path `p`, `watchPath(p, recursive = true)` registers `p` and
removes `d` from `watchedPaths` (the descendant's handle is stopped; the
handle itself is an opaque resource outside the modelled state). -/
theorem fw_C6 (s : WatcherState) (d p : String)
    (hd : (alGet s.watchers d).isSome = true)
    (hpre : jsStartsWith d p = true) (hne : d ≠ p)
    (hcov : isPathWatched s.watchers p = false) :
    p ∈ watchedPaths (watchPath s p true)
      ∧ d ∉ watchedPaths (watchPath s p true) := by
  have hnw : ¬ isPathWatched s.watchers p = true := by
    rw [hcov]
    simp
  have hany : s.watchers.any (fun e => e.1 == p) = false := by
    unfold isPathWatched at hcov
    by_cases h : s.watchers.any (fun e => e.1 == p) = true
    · rw [if_pos h] at hcov
      exact absurd hcov (by simp)
    · revert h
      cases s.watchers.any (fun e => e.1 == p) <;> simp
  have hstep : watchPath s p true
      = { s with watchers := removeWatchedChildren (alSet s.watchers p true) p } := by
    unfold watchPath
    rw [if_neg hnw]
    rfl
  rw [hstep, alSet_eq_append _ _ _ hany]
  unfold watchedPaths removeWatchedChildren
  constructor
  · apply List.mem_map.mpr
    refine ⟨(p, true), ?_, rfl⟩
    apply List.mem_filter.mpr
    refine ⟨List.mem_append_right _ (List.mem_singleton.mpr rfl), ?_⟩
    simp
  · intro hmem
    obtain ⟨e, he, hfst⟩ := List.mem_map.mp hmem
    obtain ⟨_, hkeep⟩ := List.mem_filter.mp he
    rw [hfst] at hkeep
    have hbne : (d != p) = true := by simp [hne]
    rw [hbne, hpre] at hkeep
    exact absurd hkeep (by simp)

/-- Claim C6, witness: adding a recursive watch on `/a` removes the
existing descendant entry on `/a/b`. -/
theorem fw_C6_witness :
    ((alGet (⟨[("/a/b", false)], [], [], [], [], WatchMode.filter, 500⟩ : WatcherState).watchers
        ("/a/b")).isSome = true)
    ∧ jsStartsWith ("/a/b") ("/a") = true
    ∧ "/a/b" ≠ "/a"
    ∧ isPathWatched (⟨[("/a/b", false)], [], [], [], [], WatchMode.filter, 500⟩ : WatcherState).watchers
        ("/a") = false
    ∧ ("/a" ∈ watchedPaths (watchPath (⟨[("/a/b", false)], [], [], [], [], WatchMode.filter, 500⟩ : WatcherState) ("/a") true)
        ∧ "/a/b" ∉ watchedPaths (watchPath (⟨[("/a/b", false)], [], [], [], [], WatchMode.filter, 500⟩ : WatcherState) ("/a") true)) := by
  refine ⟨by decide, by decide, by decide, by decide, ?_⟩
  exact fw_C6 (⟨[("/a/b", false)], [], [], [], [], WatchMode.filter, 500⟩ : WatcherState)
    ("/a/b") ("/a") (by decide) (by decide) (by decide) (by decide)

/-- Claim C8: in filter mode, a raw notification whose trigger was never
the file argument of any `filterFile` operation since construction
produces no changed event; in all mode, a raw notification whose trigger
is not currently throttled produces exactly one changed event. -/
theorem fw_C8 :
    (∀ (cfg : FWConfig) (throttle : Nat) (ops : List WOp) (trigger : String)
        (now : Nat),
        ops.all (fun op => !opAddsFile trigger op) = true →
        (onChangeAt (runOps cfg (initState WatchMode.filter throttle) ops)
            now trigger).2 = [])
  ∧ (∀ (s : WatcherState) (now : Nat) (trigger : String),
        s.mode = WatchMode.all →
        throttledNow (expireThrottle s.throttling now) trigger = false →
        (onChangeAt s now trigger).2.length = 1) := by
  constructor
  · intro cfg throttle ops trigger now hops
    have hmode : (runOps cfg (initState WatchMode.filter throttle) ops).mode
        = WatchMode.filter := runOps_mode cfg ops _
    have hcon : ((runOps cfg (initState WatchMode.filter throttle) ops)
        |>.filteredFiles |>.contains trigger) = false :=
      runOps_filtered_false cfg ops _ trigger rfl hops
    by_cases h1 : throttledNow (expireThrottle
        (runOps cfg (initState WatchMode.filter throttle) ops).throttling now)
        trigger = true
    · rw [onChangeAt_no_emit _ _ _ h1]
    · rw [Bool.not_eq_true] at h1
      rw [onChangeAt_filtered_out _ _ _ h1 (by rw [hmode, hcon]; rfl)]
  · intro s now trigger hmode h1
    rw [onChangeAt_emit _ _ _ h1 (by rw [hmode]; rfl)]
    rfl

/-- Claim C8, witness: a notification for `/a` after only `/b` was filtered
emits nothing in filter mode; in all mode an unthrottled notification emits
exactly one event. -/
theorem fw_C8_witness :
    (([WOp.filterFile (some ("/b")) none].all
        (fun op => !opAddsFile ("/a") op)) = true)
    ∧ (onChangeAt (runOps cfgA (initState WatchMode.filter 500)
        [WOp.filterFile (some ("/b")) none]) 0 ("/a")).2 = []
    ∧ ((⟨[], [], [], [], [], WatchMode.all, 100⟩ : WatcherState).mode
        = WatchMode.all)
    ∧ throttledNow (expireThrottle
        ((⟨[], [], [], [], [], WatchMode.all, 100⟩ : WatcherState)).throttling 5)
        ("/a") = false
    ∧ (onChangeAt (⟨[], [], [], [], [], WatchMode.all, 100⟩ : WatcherState)
        5 ("/a")).2.length = 1 :=
  ⟨by decide, fw_C8.1 cfgA 500 _ _ 0 (by decide), rfl, rfl,
   fw_C8.2 _ 5 ("/a") rfl rfl⟩

/-- Claim C7: from a state with no pending throttle entries, a qualifying
trigger notified at `t0`, again within the window at `t1`, and again at
`t2` after the window yields exactly the two events at `t0` and `t2`; and
in any run with nondecreasing arrival instants, the events emitted for one
trigger are separated by at least the configured throttle delay. -/
theorem fw_C7 :
    (∀ (s : WatcherState) (trigger : String) (t0 t1 t2 : Nat),
        s.throttling = [] →
        (s.mode = WatchMode.all ∨ s.filteredFiles.contains trigger = true) →
        t0 ≤ t1 → t1 < t0 + s.throttle → t0 + s.throttle ≤ t2 →
        ((runNotifs s [(t0, trigger), (t1, trigger), (t2, trigger)]).2).map
            (fun e => e.1) = [t0, t2])
  ∧ (∀ (s : WatcherState) (notifs : List (Nat × String)) (trigger : String),
        List.Chain' (fun a b => a ≤ b) (notifs.map (fun n => n.1)) →
        List.Chain' (fun a b => a + s.throttle ≤ b)
          (eventsFor trigger (runNotifs s notifs).2)) := by
  constructor
  · intro s trigger t0 t1 t2 hthr hpass h01 h1w h2w
    have h2a : (s.mode == WatchMode.filter
        && !(s.filteredFiles.contains trigger)) = false := by
      rcases hpass with hm | hf
      · rw [hm]; rfl
      · rw [hf]; simp
    have h1a : throttledNow (expireThrottle s.throttling t0) trigger = false := by
      rw [hthr]; rfl
    have e1 := onChangeAt_emit s t0 trigger h1a h2a
    rw [hthr] at e1
    simp only [expireThrottle, List.filter_nil, List.nil_append] at e1
    rw [runNotifs_cons, e1]
    dsimp only
    have h1b : throttledNow (expireThrottle
        ([(trigger, t0 + s.throttle)] : List (String × Nat)) t1) trigger = true := by
      simp [expireThrottle, throttledNow, h1w]
    have e2 := onChangeAt_no_emit
      ({ s with throttling := [(trigger, t0 + s.throttle)] }) t1 trigger h1b
    have hexp2 : expireThrottle
        ([(trigger, t0 + s.throttle)] : List (String × Nat)) t1
        = [(trigger, t0 + s.throttle)] := by
      simp [expireThrottle, h1w]
    dsimp only at e2
    rw [hexp2] at e2
    rw [runNotifs_cons, e2]
    dsimp only
    have hlt : ¬ (t2 < t0 + s.throttle) := by omega
    have h1c : throttledNow (expireThrottle
        ([(trigger, t0 + s.throttle)] : List (String × Nat)) t2) trigger = false := by
      simp [expireThrottle, throttledNow, hlt]
    have e3 := onChangeAt_emit
      ({ s with throttling := [(trigger, t0 + s.throttle)] }) t2 trigger h1c h2a
    have hexp3 : expireThrottle
        ([(trigger, t0 + s.throttle)] : List (String × Nat)) t2 = [] := by
      simp [expireThrottle, hlt]
    dsimp only at e3
    rw [hexp3, List.nil_append] at e3
    rw [runNotifs_cons, e3]
    dsimp only
    simp [runNotifs]
  · intro s notifs trigger hchain
    refine (runNotifs_sep_aux notifs s 0 trigger ?_).1
    refine List.chain'_cons'.mpr ⟨?_, hchain⟩
    intro y _
    exact Nat.zero_le y

/-- Claim C7, witness: throttle 100, notifications at 0, 50 and 100 for a
filtered file, giving events at 0 and 100; and the separation chain for
the two-notification run. -/
theorem fw_C7_witness :
    ((⟨[], ["/f"], [], [], [], WatchMode.filter, 100⟩ : WatcherState).throttling
        = [])
    ∧ ((⟨[], ["/f"], [], [], [], WatchMode.filter, 100⟩ : WatcherState).mode
          = WatchMode.all
        ∨ ((⟨[], ["/f"], [], [], [], WatchMode.filter, 100⟩
            : WatcherState).filteredFiles).contains ("/f") = true)
    ∧ ((0 : Nat) ≤ 50)
    ∧ (50 < 0 + (⟨[], ["/f"], [], [], [], WatchMode.filter, 100⟩
        : WatcherState).throttle)
    ∧ (0 + (⟨[], ["/f"], [], [], [], WatchMode.filter, 100⟩
        : WatcherState).throttle ≤ 100)
    ∧ ((runNotifs (⟨[], ["/f"], [], [], [], WatchMode.filter, 100⟩
          : WatcherState) [(0, "/f"), (50, "/f"), (100, "/f")]).2).map
        (fun e => e.1) = [0, 100]
    ∧ List.Chain' (fun a b => a ≤ b)
        (([(0, "/f"), (50, "/f")] : List (Nat × String)).map (fun n => n.1))
    ∧ List.Chain' (fun a b =>
          a + (⟨[], ["/f"], [], [], [], WatchMode.filter, 100⟩
            : WatcherState).throttle ≤ b)
        (eventsFor ("/f")
          (runNotifs (⟨[], ["/f"], [], [], [], WatchMode.filter, 100⟩
            : WatcherState) [(0, "/f"), (50, "/f")]).2) := by
  have hch : List.Chain' (fun a b => a ≤ b)
      (([(0, "/f"), (50, "/f")] : List (Nat × String)).map (fun n => n.1)) := by
    show List.Chain' (fun a b => a ≤ b) [0, 50]
    exact List.chain'_cons.mpr ⟨by omega, List.chain'_singleton _⟩
  refine ⟨rfl, Or.inr (by decide), by decide, by decide, by decide, ?_,
    hch, ?_⟩
  · exact fw_C7.1 _ ("/f") 0 50 100 rfl (Or.inr (by decide)) (by decide)
      (by decide) (by decide)
  · exact fw_C7.2 _ [(0, "/f"), (50, "/f")] ("/f") hch
